import Mathlib

set_option maxRecDepth 8000

/-!
Verification of the Pentagon-Briefing-Generator extraction/aggregation
pipeline (`src/pipeline/extractor.py`, `analyzer.py`, `build_corpus.py`).

The Python code is shallowly embedded: text is modelled as `String` /
`List Char`, Python floats as `ℚ`, Python `Counter`/`dict` as
insertion-ordered association lists, `Counter.most_common` as a stable
merge sort by descending count, and Python's regular-expression scans as
executable matchers specialised to the concrete patterns in the source.
-/

namespace PBG

/-! ## Character classes (ASCII, as used by the `re` patterns in the source) -/

def isUpperCh (c : Char) : Bool := 65 ≤ c.toNat && c.toNat ≤ 90

def isLowerCh (c : Char) : Bool := 97 ≤ c.toNat && c.toNat ≤ 122

def isAlphaCh (c : Char) : Bool := isUpperCh c || isLowerCh c

def isDigitCh (c : Char) : Bool := 48 ≤ c.toNat && c.toNat ≤ 57

/-- `\w` of Python `re`: letters, digits, underscore (ASCII fragment). -/
def isWordCh (c : Char) : Bool := isAlphaCh c || isDigitCh c || c == '_'

/-- `\s` of Python `re` (ASCII fragment): space, tab, newline, CR, VT, FF. -/
def isSpaceCh (c : Char) : Bool :=
  c == ' ' || c == '\t' || c == '\n' || c == '\r' || c == '\x0b' || c == '\x0c'

/-- Python `str.lower` restricted to ASCII letters. -/
def lowerCh (c : Char) : Char := if isUpperCh c then Char.ofNat (c.toNat + 32) else c

def lowerStr (s : List Char) : List Char := s.map lowerCh

/-- Python `pat in s` substring test. -/
def containsSub (s : List Char) (pat : String) : Bool := decide (List.IsInfix pat.toList s)

def containsAny (s : List Char) (pats : List String) : Bool := pats.any (containsSub s)

/-! ## `PDFExtractor.classify_slide_type` (extractor.py lines 132-175)

A text block, restricted to the two fields the classifier reads:
the block text and its average font size (a Python float, embedded as `ℚ`). -/

structure Block where
  text : String
  avg_font_size : ℚ
deriving Repr, DecidableEq

/-- `" ".join(b["text"] for b in text_blocks).lower()` -/
def fullTextLower (bs : List Block) : List Char :=
  lowerStr (List.intercalate [' '] (bs.map (fun b => b.text.toList)))

def sumSizes (bs : List Block) : ℚ := (bs.map (fun b => b.avg_font_size)).sum

/-- `sum(...) / max(num_blocks, 1)` -/
def meanFontSize (bs : List Block) : ℚ := sumSizes bs / (max bs.length 1 : ℚ)

/-- Rule 1: `num_blocks <= 4` and mean font size `> 18`. -/
def titleCond (n : ℕ) (avg : ℚ) : Bool := n ≤ 4 && decide (avg > 18)

/-- Rule 2. -/
def agendaCond (ft : List Char) : Bool :=
  containsAny ft ["agenda", "outline", "overview", "table of contents"]

/-- Rule 3: `re.search(r"question|discussion|\?{2,}", full_text)` and `num_blocks <= 3`. -/
def questionsCond (ft : List Char) (n : ℕ) : Bool :=
  (containsSub ft "question" || containsSub ft "discussion" || containsSub ft "??") && n ≤ 3

/-- Rule 4. -/
def backupCond (ft : List Char) (n : ℕ) : Bool := containsSub ft "backup" && n ≤ 3

/-- Rule 5. -/
def budgetCond (ft : List Char) : Bool :=
  containsAny ft ["fy2", "fy1", "fydp", "budget", "funding", "$ in", "rdt&e", "procurement"] &&
  containsAny ft ["total", "mil", "000", "$"]

/-- Rule 6. -/
def timelineCond (ft : List Char) : Bool :=
  containsAny ft ["timeline", "schedule", "milestone", "roadmap", "phased"]

/-- Rule 7. -/
def orgchartCond (ft : List Char) : Bool :=
  containsAny ft ["organization", "command", "governance", "reporting"]

/-- Rule 8. -/
def matrixCond (ft : List Char) : Bool :=
  containsAny ft ["risk", "matrix", "assessment", "status", "stoplight", "red", "yellow", "green"]

/-- The rule chain as a function of the derived feature triple
(block count, mean font size, lowercased full text). -/
def classifyFromFeatures (n : ℕ) (avg : ℚ) (ft : List Char) : String :=
  if titleCond n avg then "title"
  else if agendaCond ft then "agenda"
  else if questionsCond ft n then "questions"
  else if backupCond ft n then "backup"
  else if budgetCond ft then "budget"
  else if timelineCond ft then "timeline"
  else if orgchartCond ft then "orgchart"
  else if matrixCond ft then "matrix"
  else "bullets"

/-- `PDFExtractor.classify_slide_type`. -/
def classify_slide_type (bs : List Block) : String :=
  let ft := fullTextLower bs
  let n := bs.length
  if titleCond n (meanFontSize bs) then "title"
  else if agendaCond ft then "agenda"
  else if questionsCond ft n then "questions"
  else if backupCond ft n then "backup"
  else if budgetCond ft then "budget"
  else if timelineCond ft then "timeline"
  else if orgchartCond ft then "orgchart"
  else if matrixCond ft then "matrix"
  else "bullets"

/-- The fixed label set of §4.2. -/
def slideLabels : List String :=
  ["title", "agenda", "questions", "backup", "budget", "timeline", "orgchart", "matrix", "bullets"]

theorem classify_eq_features (bs : List Block) :
    classify_slide_type bs = classifyFromFeatures bs.length (meanFontSize bs) (fullTextLower bs) :=
  rfl

theorem classifyFromFeatures_mem (n : ℕ) (avg : ℚ) (ft : List Char) :
    classifyFromFeatures n avg ft ∈ slideLabels := by
  unfold classifyFromFeatures slideLabels
  split_ifs <;> simp

/-- C1 (amended): `classify_slide_type` always returns one label from the fixed
nine-label set, is a pure function of the feature triple
(block count, mean font size, lowercased full text), and for any input whose
full text satisfies both the rule-2 (agenda) and rule-5 (budget) conditions the
result is "agenda" — provided the earlier rule-1 (title) condition does not
hold, since rule 1 precedes rule 2 in the chain. -/
theorem c1_classifier_rule_order (bs : List Block) :
    classify_slide_type bs ∈ slideLabels ∧
    classify_slide_type bs = classifyFromFeatures bs.length (meanFontSize bs) (fullTextLower bs) ∧
    (agendaCond (fullTextLower bs) = true →
      budgetCond (fullTextLower bs) = true →
      titleCond bs.length (meanFontSize bs) = false →
      classify_slide_type bs = "agenda") := by
  refine ⟨?_, rfl, ?_⟩
  · rw [classify_eq_features]; exact classifyFromFeatures_mem _ _ _
  · intro ha _hb ht
    rw [classify_eq_features]
    unfold classifyFromFeatures
    rw [ht, ha]
    simp

/-- Witness for C1: a two-block slide whose text matches both the agenda and the
budget rule but not the title rule is classified "agenda". -/
theorem c1_classifier_rule_order_witness :
    classify_slide_type [⟨"Agenda", 10⟩, ⟨"Budget Total", 10⟩] = "agenda" :=
  (c1_classifier_rule_order [⟨"Agenda", 10⟩, ⟨"Budget Total", 10⟩]).2.2
    (by decide) (by decide)
    (by unfold titleCond meanFontSize sumSizes; norm_num)

/-- Counterexample to C1 as stated: a single large-font block containing both
agenda and budget keywords satisfies rule 2 and rule 5, yet is classified
"title" (rule 1 fires first), not "agenda". -/
theorem c1_counterexample :
    agendaCond (fullTextLower [⟨"Agenda Budget Total FY2024", 24⟩]) = true ∧
    budgetCond (fullTextLower [⟨"Agenda Budget Total FY2024", 24⟩]) = true ∧
    classify_slide_type [⟨"Agenda Budget Total FY2024", 24⟩] = "title" ∧
    classify_slide_type [⟨"Agenda Budget Total FY2024", 24⟩] ≠ "agenda" := by
  have ht : titleCond [(⟨"Agenda Budget Total FY2024", 24⟩ : Block)].length
      (meanFontSize [⟨"Agenda Budget Total FY2024", 24⟩]) = true := by
    unfold titleCond meanFontSize sumSizes
    norm_num
  have hc : classify_slide_type [⟨"Agenda Budget Total FY2024", 24⟩] = "title" := by
    rw [classify_eq_features]
    unfold classifyFromFeatures
    rw [ht]
    decide
  refine ⟨by decide, by decide, hc, ?_⟩
  rw [hc]
  decide

/-- C10: `classify_slide_type` is total; its mean-font-size computation divides
by `max (block count) 1`, which is never zero, and on the empty block list the
result is the default label "bullets". -/
theorem c10_classify_empty_default :
    classify_slide_type [] = "bullets" ∧
    (∀ bs : List Block, meanFontSize bs = sumSizes bs / (max bs.length 1 : ℚ)) ∧
    (∀ bs : List Block, ((max bs.length 1 : ℕ) : ℚ) ≠ 0) := by
  refine ⟨?_, fun bs => rfl, fun bs => ?_⟩
  · have ht : titleCond ([] : List Block).length (meanFontSize []) = false := by
      unfold titleCond meanFontSize sumSizes
      norm_num
    rw [classify_eq_features]
    unfold classifyFromFeatures
    rw [ht]
    decide
  · have h : max bs.length 1 ≠ 0 := by omega
    exact_mod_cast h

/-! ## Python `Counter` / `dict`

A Python `dict` (and `Counter`) is insertion-ordered: embedded as an
association list in which a new key is appended at the end and an existing
key is updated in place.  `Counter.most_common` sorts by count descending;
CPython's sort is stable, so ties keep insertion order — embedded as a
stable merge sort with the relation `b.count ≤ a.count`. -/

section PyDict

variable {α : Type} [DecidableEq α]

/-- `counter[k] += n` (`k` appended if absent). -/
def counterAdd (d : List (α × ℕ)) (k : α) (n : ℕ) : List (α × ℕ) :=
  match d with
  | [] => [(k, n)]
  | (k', c) :: rest => if k' = k then (k', c + n) :: rest else (k', c) :: counterAdd rest k n

/-- `counter.update(ks)`. -/
def counterUpdate (d : List (α × ℕ)) (ks : List α) : List (α × ℕ) :=
  ks.foldl (fun d' k => counterAdd d' k 1) d

/-- `counter[k]` with default 0 (`Counter` lookup semantics). -/
def counterGet (d : List (α × ℕ)) (k : α) : ℕ :=
  match d with
  | [] => 0
  | (k', c) :: rest => if k' = k then c else counterGet rest k

/-- `sum(counter.values())`. -/
def counterTotal (d : List (α × ℕ)) : ℕ := (d.map (fun e => e.2)).sum

end PyDict

/-- Stable insertion into a count-descending list: an element inserted from
the left of the input goes before every element of equal count. -/
def insertByCount {α : Type} (e : α × ℕ) : List (α × ℕ) → List (α × ℕ)
  | [] => [e]
  | f :: rest => if e.2 ≥ f.2 then e :: f :: rest else f :: insertByCount e rest

/-- Stable sort by count descending (CPython's sort is stable, and a stable
sort is uniquely determined by the comparator and the input order, so
insertion sort gives exactly the `sorted(..., reverse=True)` result). -/
def sortByCountDesc {α : Type} : List (α × ℕ) → List (α × ℕ)
  | [] => []
  | e :: rest => insertByCount e (sortByCountDesc rest)

/-- `counter.most_common()`: stable sort by count descending. -/
def mostCommon {α : Type} (d : List (α × ℕ)) : List (α × ℕ) :=
  sortByCountDesc d

/-- `counter.most_common(n)` (= `heapq.nlargest`, documented as
`sorted(..., reverse=True)[:n]`). -/
def mostCommonN {α : Type} (n : ℕ) (d : List (α × ℕ)) : List (α × ℕ) := (mostCommon d).take n

section PyDict

variable {α : Type} [DecidableEq α]

theorem counterAdd_total (d : List (α × ℕ)) (k : α) (n : ℕ) :
    counterTotal (counterAdd d k n) = counterTotal d + n := by
  induction d with
  | nil => simp [counterAdd, counterTotal]
  | cons e rest ih =>
    obtain ⟨k', c⟩ := e
    by_cases h : k' = k <;> simp [counterAdd, counterTotal, h] <;>
      simp [counterTotal] at ih <;> omega

theorem counterUpdate_total (ks : List α) (d : List (α × ℕ)) :
    counterTotal (counterUpdate d ks) = counterTotal d + ks.length := by
  induction ks generalizing d with
  | nil => simp [counterUpdate]
  | cons k ks ih =>
    show counterTotal (counterUpdate (counterAdd d k 1) ks) = _
    rw [ih, counterAdd_total]
    simp
    omega

end PyDict

theorem insertByCount_perm {α : Type} (e : α × ℕ) (l : List (α × ℕ)) :
    (insertByCount e l).Perm (e :: l) := by
  induction l with
  | nil => simp [insertByCount]
  | cons f rest ih =>
    unfold insertByCount
    split_ifs
    · exact List.Perm.refl _
    · exact (List.Perm.cons f ih).trans (List.Perm.swap e f rest)

theorem sortByCountDesc_perm {α : Type} (d : List (α × ℕ)) :
    (sortByCountDesc d).Perm d := by
  induction d with
  | nil => simp [sortByCountDesc]
  | cons e rest ih =>
    exact (insertByCount_perm e (sortByCountDesc rest)).trans (List.Perm.cons e ih)

theorem mostCommon_perm {α : Type} (d : List (α × ℕ)) : (mostCommon d).Perm d :=
  sortByCountDesc_perm d

/-! ## `PDFExtractor.process_pdf` / `process_all` (extractor.py lines 186-262)

One normalized slide record (extractor.py lines 223-243), restricted to the
fields the analyzer reads.  Colors are modelled as quantized RGB triples
(the hex string of the source is a bijective encoding of the triple). -/

structure ColorEntry where
  hex : ℕ × ℕ × ℕ
  frequency : ℚ
deriving Repr, DecidableEq

structure Slide where
  source_file : String
  slide_type : String
  title : String
  full_text : String
  colors : List ColorEntry
  acronyms : List String
  num_text_blocks : ℕ
deriving Repr, DecidableEq

/-- Outcome of processing one page inside the `for page_num` loop:
the page has no text blocks (skipped), assembles into a record, or raises. -/
inductive PageResult where
  | blank : PageResult
  | ok (s : Slide) : PageResult
  | err : PageResult
deriving Repr, DecidableEq

/-- The page loop of `process_pdf`: records are appended to `slides` as pages
are processed; an exception aborts the loop, and the `except` clause returns
the records accumulated so far. -/
def processPages : List PageResult → List Slide
  | [] => []
  | PageResult.blank :: rest => processPages rest
  | PageResult.ok s :: rest => s :: processPages rest
  | PageResult.err :: _ => []

/-- `PDFExtractor.process_pdf`: `Except.error` models `fitz.open` raising
(no pages processed at all). -/
def process_pdf : Except Unit (List PageResult) → List Slide
  | Except.error _ => []
  | Except.ok pages => processPages pages

/-- `PDFExtractor.process_all`: `all_slides.extend(self.process_pdf(path))`
over the batch. -/
def process_all (docs : List (Except Unit (List PageResult))) : List Slide :=
  docs.foldl (fun acc d => acc ++ process_pdf d) []

theorem foldl_append_acc {β : Type} (f : β → List Slide) :
    ∀ (l : List β) (acc : List Slide),
      l.foldl (fun a d => a ++ f d) acc = acc ++ l.foldl (fun a d => a ++ f d) [] := by
  intro l
  induction l with
  | nil => simp
  | cons d ds ih =>
    intro acc
    have h1 : (d :: ds).foldl (fun a d' => a ++ f d') acc =
        ds.foldl (fun a d' => a ++ f d') (acc ++ f d) := rfl
    have h2 : (d :: ds).foldl (fun a d' => a ++ f d') [] =
        ds.foldl (fun a d' => a ++ f d') ([] ++ f d) := rfl
    rw [h1, h2, ih (acc ++ f d), ih ([] ++ f d)]
    simp

/-- C3 (amended): a document whose processing raises contributes exactly the
records of the pages processed before the failure (the loop aborts, the
handler keeps the accumulated list), and the batch continues with the
remaining documents. -/
theorem c3_partial_records :
    (∀ (pre post : List PageResult),
      process_pdf (Except.ok (pre ++ PageResult.err :: post)) = process_pdf (Except.ok pre)) ∧
    (∀ (d : Except Unit (List PageResult)) (ds : List (Except Unit (List PageResult))),
      process_all (d :: ds) = process_pdf d ++ process_all ds) := by
  constructor
  · intro pre post
    show processPages (pre ++ PageResult.err :: post) = processPages pre
    induction pre with
    | nil => rfl
    | cons p rest ih =>
      cases p <;> simp [processPages, ih]
  · intro d ds
    show (d :: ds).foldl (fun a d' => a ++ process_pdf d') [] = _
    simp only [List.foldl_cons, List.nil_append]
    exact foldl_append_acc process_pdf ds (process_pdf d)

/-- Counterexample to C3 as stated: a document with one successfully extracted
page followed by a page whose processing raises returns that page's record —
not the empty list the claim requires. -/
theorem c3_counterexample :
    process_pdf (Except.ok
      [PageResult.ok ⟨"doc.pdf", "bullets", "Title", "Some text", [], [], 1⟩,
       PageResult.err]) =
      [⟨"doc.pdf", "bullets", "Title", "Some text", [], [], 1⟩] ∧
    process_pdf (Except.ok
      [PageResult.ok ⟨"doc.pdf", "bullets", "Title", "Some text", [], [], 1⟩,
       PageResult.err]) ≠ [] := by
  exact ⟨rfl, by decide⟩

/-! ## Python `round` (banker's rounding, on exact rationals) -/

/-- Round to the nearest integer, ties to the even neighbour. -/
def rhe (q : ℚ) : ℤ :=
  if q - Int.floor q < 1/2 then Int.floor q
  else if q - Int.floor q > 1/2 then Int.floor q + 1
  else if Even (Int.floor q) then Int.floor q else Int.floor q + 1

/-- Python `round(q, 1)`. -/
def round1 (q : ℚ) : ℚ := (rhe (10 * q) : ℚ) / 10

/-- Python `round(q, 3)`. -/
def round3 (q : ℚ) : ℚ := (rhe (1000 * q) : ℚ) / 1000

theorem abs_rhe_sub_le (q : ℚ) : |(rhe q : ℚ) - q| ≤ 1/2 := by
  unfold rhe
  have h0 : (Int.floor q : ℚ) ≤ q := Int.floor_le q
  have h1 : q < (Int.floor q : ℚ) + 1 := Int.lt_floor_add_one q
  split_ifs with hlt hgt hev
  · rw [abs_sub_comm, abs_of_nonneg (by linarith)]
    linarith
  · push_neg at hlt hgt
    push_cast
    rw [abs_of_nonneg (by linarith)]
    linarith
  · rw [abs_sub_comm, abs_of_nonneg (by linarith)]
    linarith
  · push_neg at hlt hgt
    have heq : q - (Int.floor q : ℚ) = 1/2 := le_antisymm hgt hlt
    push_cast
    rw [abs_of_nonneg (by linarith)]
    linarith

/-! ## `PDFExtractor.extract_page_colors` (extractor.py lines 87-130)

The random pixel sample is taken as the input (the code after sampling is a
deterministic function of the sampled pixels); `sample_size` is its length.
Hex strings are kept as RGB triples.  `30 < (r+g+b)/3 < 230` over Python
floats is exactly `90 < r+g+b < 690` over naturals. -/

/-- `(pixels // 16) * 16`, per channel. -/
def quantizeCh (v : ℕ) : ℕ := v / 16 * 16

def quantize (p : ℕ × ℕ × ℕ) : ℕ × ℕ × ℕ := (quantizeCh p.1, quantizeCh p.2.1, quantizeCh p.2.2)

/-- `30 < brightness < 230` with `brightness = (r + g + b) / 3`. -/
def brightnessOK (c : ℕ × ℕ × ℕ) : Bool :=
  90 < c.1 + c.2.1 + c.2.2 && c.1 + c.2.1 + c.2.2 < 690

/-- `PDFExtractor.extract_page_colors` after the render/sample step: count the
quantized sample, take `most_common(20)`, keep the colors whose brightness is
strictly inside (30, 230) with `frequency = round(count / sample_size, 3)`,
and return the first 10. -/
def extract_page_colors (pixels : List (ℕ × ℕ × ℕ)) : List ColorEntry :=
  let sample_size := pixels.length
  let counter := counterUpdate [] (pixels.map quantize)
  let colors := ((mostCommonN 20 counter).filter (fun e => brightnessOK e.1)).map
    (fun e => ⟨e.1, round3 ((e.2 : ℚ) / (sample_size : ℚ))⟩)
  colors.take 10

/-- C2 (amended): the near-white/near-black filter runs after the truncation
to the 20 most frequent colors, not before ranking: every returned color has
mean brightness strictly inside (30, 230) and is one of the 20 most frequent
quantized sample colors, and at most 10 entries are returned — but a
mid-brightness color that is only among the 10 most frequent mid-brightness
colors (not among the overall top 20) is dropped. -/
theorem c2_color_filter_after_rank :
    (∀ pixels : List (ℕ × ℕ × ℕ), (extract_page_colors pixels).length ≤ 10) ∧
    (∀ (pixels : List (ℕ × ℕ × ℕ)) (c : ℕ × ℕ × ℕ),
      c ∈ (extract_page_colors pixels).map ColorEntry.hex →
      brightnessOK c = true ∧
      ∃ n, (c, n) ∈ mostCommonN 20 (counterUpdate [] (pixels.map quantize))) := by
  constructor
  · intro pixels
    unfold extract_page_colors
    simp [List.length_take]
  · intro pixels c hc
    unfold extract_page_colors at hc
    simp only [List.map_take, List.map_map] at hc
    have hc' := List.take_subset _ _ hc
    simp only [List.mem_map, List.mem_filter, Function.comp] at hc'
    obtain ⟨e, ⟨he, hb⟩, hhex⟩ := hc'
    subst hhex
    exact ⟨hb, e.2, he⟩

/-- Witness for C2: a uniform mid-gray sample returns that color, which indeed
passes the brightness filter and appears in the counted top 20. -/
theorem c2_color_filter_after_rank_witness :
    brightnessOK (96, 96, 96) = true ∧
    ∃ n, ((96, 96, 96), n) ∈
      mostCommonN 20 (counterUpdate []
        ((List.replicate 4 ((100 : ℕ), (100 : ℕ), (100 : ℕ))).map quantize)) :=
  c2_color_filter_after_rank.2 (List.replicate 4 (100, 100, 100)) (96, 96, 96) (by decide)

/-- Pixel sample refuting C2 as stated: eleven distinct near-black colors
occupy the top of the frequency ranking, so `most_common(20)` holds only nine
mid-brightness colors and the tenth most frequent mid-brightness color
(96,128,96) is cut before the brightness filter runs. -/
def cexPixels : List (ℕ × ℕ × ℕ) :=
  List.replicate 13 (0, 0, 0) ++ List.replicate 14 (16, 0, 0) ++
  List.replicate 15 (0, 16, 0) ++ List.replicate 16 (0, 0, 16) ++
  List.replicate 17 (16, 16, 0) ++ List.replicate 18 (16, 0, 16) ++
  List.replicate 19 (0, 16, 16) ++ List.replicate 20 (16, 16, 16) ++
  List.replicate 21 (32, 0, 0) ++ List.replicate 22 (0, 32, 0) ++
  List.replicate 23 (0, 0, 32) ++
  List.replicate 3 (96, 96, 96) ++ List.replicate 4 (112, 96, 96) ++
  List.replicate 5 (96, 112, 96) ++ List.replicate 6 (96, 96, 112) ++
  List.replicate 7 (112, 112, 96) ++ List.replicate 8 (112, 96, 112) ++
  List.replicate 9 (96, 112, 112) ++ List.replicate 10 (112, 112, 112) ++
  List.replicate 11 (128, 96, 96) ++ List.replicate 2 (96, 128, 96)

/-- Counterexample to C2 as stated: (96,128,96) has brightness strictly
between 30 and 230, occurs in the sample, and at most nine brightness-passing
colors are more frequent (so it is among the 10 most frequent such colors),
yet it does not appear in the output. -/
theorem c2_counterexample :
    brightnessOK (96, 128, 96) = true ∧
    (96, 128, 96) ∈ (counterUpdate [] (cexPixels.map quantize)).map Prod.fst ∧
    ((counterUpdate [] (cexPixels.map quantize)).filter
      (fun e => brightnessOK e.1 &&
        counterGet (counterUpdate [] (cexPixels.map quantize)) (96, 128, 96) < e.2)).length ≤ 9 ∧
    (96, 128, 96) ∉ (extract_page_colors cexPixels).map ColorEntry.hex := by
  refine ⟨by decide, by decide, by decide, by decide⟩

/-! ## `SlideAnalyzer.compute_slide_type_distribution` (analyzer.py lines 196-208) -/

structure DistEntry where
  slide_type : String
  count : ℕ
  percentage : ℚ
deriving Repr, DecidableEq

/-- `Counter(s.get("slide_type", "unknown") for s in slides)`, `total`,
then one `{count, percentage}` entry per type in `most_common()` order, with
`percentage = round(count / total * 100, 1)`. -/
def compute_slide_type_distribution (slides : List Slide) : List DistEntry :=
  let counter := counterUpdate [] (slides.map (fun s => s.slide_type))
  let total := counterTotal counter
  (mostCommon counter).map (fun e => ⟨e.1, e.2, round1 ((e.2 : ℚ) / (total : ℚ) * 100)⟩)

theorem abs_round1_sub_le (q : ℚ) : |round1 q - q| ≤ 1/20 := by
  have h := abs_rhe_sub_le (10 * q)
  unfold round1
  have : (rhe (10 * q) : ℚ) / 10 - q = ((rhe (10 * q) : ℚ) - 10 * q) / 10 := by ring
  rw [this, abs_div]
  rw [show |(10 : ℚ)| = 10 by norm_num]
  linarith

theorem sum_map_round1_close (l : List ℚ) :
    |((l.map round1).sum - l.sum)| ≤ (l.length : ℚ) * (1/20) := by
  induction l with
  | nil => simp
  | cons q rest ih =>
    have h := abs_round1_sub_le q
    have tri : |round1 q + (rest.map round1).sum - (q + rest.sum)| ≤
        |round1 q - q| + |(rest.map round1).sum - rest.sum| := by
      have : round1 q + (rest.map round1).sum - (q + rest.sum) =
          (round1 q - q) + ((rest.map round1).sum - rest.sum) := by ring
      rw [this]
      exact abs_add _ _
    simp only [List.map_cons, List.sum_cons, List.length_cons]
    push_cast
    calc |round1 q + (rest.map round1).sum - (q + rest.sum)| ≤
        |round1 q - q| + |(rest.map round1).sum - rest.sum| := tri
      _ ≤ 1/20 + (rest.length : ℚ) * (1/20) := add_le_add h ih
      _ = ((rest.length : ℚ) + 1) * (1/20) := by ring

theorem counterUpdate_nil_total {α : Type} [DecidableEq α] (l : List α) :
    counterTotal (counterUpdate ([] : List (α × ℕ)) l) = l.length := by
  have h := counterUpdate_total l ([] : List (α × ℕ))
  simpa [counterTotal] using h

/-- C7: for a non-empty batch, the distribution percentages sum to 100 within
±0.1 times the number of distinct slide-type categories. -/
theorem c7_percentage_sum (slides : List Slide) (h : slides ≠ []) :
    |((compute_slide_type_distribution slides).map (fun e => e.percentage)).sum - 100| ≤
      (1/10) * ((compute_slide_type_distribution slides).length : ℚ) := by
  unfold compute_slide_type_distribution
  set C := counterUpdate ([] : List (String × ℕ)) (slides.map (fun s => s.slide_type)) with hC
  set n := counterTotal C with hn
  have hnpos : 0 < n := by
    rw [hn, hC, counterUpdate_nil_total]
    simp only [List.length_map]
    cases slides with
    | nil => exact absurd rfl h
    | cons a l => simp
  have hnne : ((n : ℚ)) ≠ 0 := by positivity
  set S := mostCommon C with hS
  -- the exact (unrounded) percentages
  set xs := S.map (fun e => ((e.2 : ℚ) / (n : ℚ) * 100)) with hxs
  have hmapmap :
      (S.map (fun e : String × ℕ => (⟨e.1, e.2, round1 ((e.2 : ℚ) / (n : ℚ) * 100)⟩ : DistEntry))).map
        (fun e => e.percentage) = xs.map round1 := by
    rw [hxs, List.map_map, List.map_map]
    rfl
  have hsumcounts : (S.map (fun e => ((e.2 : ℕ) : ℚ))).sum = (n : ℚ) := by
    have hperm : (S.map (fun e => ((e.2 : ℕ) : ℚ))).Perm (C.map (fun e => ((e.2 : ℕ) : ℚ))) :=
      (mostCommon_perm C).map _
    rw [hperm.sum_eq]
    rw [hn]
    unfold counterTotal
    rw [Nat.cast_list_sum, List.map_map]
    rfl
  have hxsum : xs.sum = 100 := by
    have hfact : ∀ L : List (String × ℕ),
        (L.map (fun e => ((e.2 : ℚ) / (n : ℚ) * 100))).sum =
          (L.map (fun e => ((e.2 : ℕ) : ℚ))).sum / (n : ℚ) * 100 := by
      intro L
      induction L with
      | nil => simp
      | cons e rest ih => simp only [List.map_cons, List.sum_cons, ih]; ring
    rw [hxs, hfact S, hsumcounts]
    field_simp
  have hlen : ((S.map (fun e : String × ℕ =>
      (⟨e.1, e.2, round1 ((e.2 : ℚ) / (n : ℚ) * 100)⟩ : DistEntry))).length : ℚ) =
      (xs.length : ℚ) := by
    simp [hxs]
  rw [hmapmap, hlen]
  have hclose := sum_map_round1_close xs
  rw [hxsum] at hclose
  have : (xs.length : ℚ) * (1/20) ≤ (1/10) * (xs.length : ℚ) := by
    have hx : (0 : ℚ) ≤ (xs.length : ℚ) := by positivity
    linarith
  linarith

/-- Witness for C7 at a concrete two-type batch. -/
theorem c7_percentage_sum_witness :
    |((compute_slide_type_distribution
        [⟨"a.pdf", "bullets", "", "t", [], [], 1⟩, ⟨"a.pdf", "title", "", "t", [], [], 1⟩]).map
      (fun e => e.percentage)).sum - 100| ≤
      (1/10) * ((compute_slide_type_distribution
        [⟨"a.pdf", "bullets", "", "t", [], [], 1⟩, ⟨"a.pdf", "title", "", "t", [], [], 1⟩]).length : ℚ) :=
  c7_percentage_sum _ (by decide)

/-! ## String helpers shared by the analyzer -/

/-- Python `str.strip()` (ASCII whitespace). -/
def stripWS (s : List Char) : List Char :=
  ((s.dropWhile isSpaceCh).reverse.dropWhile isSpaceCh).reverse

/-- Python `str.upper` restricted to ASCII letters. -/
def upperCh (c : Char) : Char := if isLowerCh c then Char.ofNat (c.toNat - 32) else c

def upperStr (s : List Char) : List Char := s.map upperCh

/-- `re.sub(r'[\s]+', ' ', s)`: collapse every whitespace run to one space. -/
def collapseWSAux : Bool → List Char → List Char
  | _, [] => []
  | prevSp, c :: rest =>
    if isSpaceCh c then
      if prevSp then collapseWSAux true rest else ' ' :: collapseWSAux true rest
    else c :: collapseWSAux false rest

def collapseWS (s : List Char) : List Char := collapseWSAux false s

/-- The trailing-punctuation class of `re.sub(r'[:\-–—]+$', '', s)`. -/
def isTrailPunct (c : Char) : Bool := c == ':' || c == '-' || c == '–' || c == '—'

/-- `re.sub(r'[:\-–—]+$', '', s)`: drop the maximal trailing punctuation run. -/
def stripTrailingPunct (s : List Char) : List Char :=
  (s.reverse.dropWhile isTrailPunct).reverse

/-- Python `str.split()`: maximal runs of non-whitespace characters. -/
def pySplit (s : List Char) : List (List Char) :=
  (s.splitOnP (fun c => isSpaceCh c)).filter (fun w => !w.isEmpty)

/-- `defaultdict(list)`: append `v` to the list at key `k` (key appended if
absent) — insertion-ordered. -/
def dictAppend {κ ν : Type} [DecidableEq κ] (d : List (κ × List ν)) (k : κ) (v : ν) :
    List (κ × List ν) :=
  match d with
  | [] => [(k, [v])]
  | (k', vs) :: rest => if k' = k then (k', vs ++ [v]) :: rest else (k', vs) :: dictAppend rest k v

/-- Python `dict.get(k, v0)` (first matching key). -/
def lookupD {κ ν : Type} [DecidableEq κ] (d : List (κ × ν)) (k : κ) (v0 : ν) : ν :=
  match d with
  | [] => v0
  | (k', v) :: rest => if k' = k then v else lookupD rest k v0

/-! ## `SlideAnalyzer.extract_common_titles` (analyzer.py lines 210-228) -/

/-- Normalize one title: upper-case, strip, collapse whitespace, strip
trailing `[:\-–—]+`, strip again (the exact order of the source). -/
def normalizeTitle (t : List Char) : List Char :=
  stripWS (stripTrailingPunct (collapseWS (stripWS (upperStr t))))

/-- `SlideAnalyzer.extract_common_titles` with its default `top_n=200`. -/
def extract_common_titles (slides : List Slide) : List (String × ℕ) :=
  let counter := slides.foldl (fun c s =>
    let t := stripWS s.title.toList
    if t ≠ [] ∧ 3 < t.length then
      let normalized := normalizeTitle t
      if normalized ≠ [] then counterAdd c (String.mk normalized) 1 else c
    else c) []
  (mostCommonN 200 counter).filter (fun e => 2 ≤ e.2)

/-! ## `SlideAnalyzer.collect_sample_text` (analyzer.py lines 165-194)

`random.shuffle` is modelled as an injected permutation function; the claims
settled here only exercise the empty batch, where it is never invoked. -/

structure Sample where
  title : String
  text : String
  num_blocks : ℕ
deriving Repr, DecidableEq

/-- `SlideAnalyzer.collect_sample_text` with its default `samples_per_type=10`. -/
def collect_sample_text (shuffle : List Sample → List Sample) (slides : List Slide) :
    List (String × List Sample) :=
  let byType := slides.foldl (fun d s =>
    let text := stripWS s.full_text.toList
    let title := stripWS s.title.toList
    if text.length < 50 ∨ 1500 < text.length then d
    else dictAppend d s.slide_type
      ⟨String.mk (title.take 200), String.mk (text.take 1000), s.num_text_blocks⟩) []
  byType.map (fun e => (e.1, (shuffle e.2).take 10))

/-! ## `SlideAnalyzer.analyze_color_palettes` (analyzer.py lines 118-163)

`random.sample(population, k)` is modelled as an injected sampling function;
only the empty batch (where no sampling happens) is exercised here. -/

structure PaletteEntry where
  slide_type : String
  colors : List (ℕ × ℕ × ℕ)
deriving Repr, DecidableEq

def analyze_color_palettes
    (sample : List (List (ℕ × ℕ × ℕ)) → ℕ → List (List (ℕ × ℕ × ℕ)))
    (slides : List Slide) : List PaletteEntry :=
  let all_palettes := (slides.filter (fun s => 2 ≤ s.colors.length)).map
    (fun s => (s.slide_type, (s.colors.take 5).map (fun c => c.hex)))
  let color_counter := counterUpdate [] ((all_palettes.map Prod.snd).flatten)
  let palettes_by_type := all_palettes.foldl (fun d p => dictAppend d p.1 p.2) []
  (palettes_by_type.flatMap (fun e =>
    (sample e.2 (min 5 e.2.length)).map (fun pal => PaletteEntry.mk e.1 pal))) ++
  [⟨"_overall", (mostCommonN 10 color_counter).map Prod.fst⟩]

/-! ## `SlideAnalyzer.build_vocabulary` (analyzer.py lines 37-82) -/

/-- The STOP_WORDS block of the source, whitespace-split (repeats kept;
only membership is ever tested). -/
def STOP_WORDS : List String :=
  ["the", "a", "an", "is", "are", "was", "were", "be", "been", "being", "have", "has",
   "had", "do", "does", "did",
   "will", "would", "shall", "should", "may", "might", "can", "could", "of", "in", "to",
   "for", "with", "on",
   "at", "by", "from", "as", "into", "through", "during", "before", "after", "above",
   "below", "between",
   "out", "off", "over", "under", "again", "further", "then", "once", "here", "there",
   "when", "where",
   "why", "how", "all", "each", "every", "both", "few", "more", "most", "other", "some",
   "such", "no", "not",
   "only", "own", "same", "so", "than", "too", "very", "just", "because", "but", "and",
   "or", "if", "while",
   "this", "that", "these", "those", "it", "its", "he", "she", "they", "them", "their",
   "his", "her", "we",
   "our", "you", "your", "i", "me", "my", "which", "what", "who", "whom", "whose",
   "about", "also", "any",
   "another", "back", "even", "still", "already", "much", "many", "since", "however",
   "although",
   "well", "also", "more", "most", "just", "only", "than", "so", "very", "really",
   "quite", "rather"]

/-- `re.findall(r'\b[a-zA-Z]{3,}\b', text)`: the maximal ASCII-letter runs of
length ≥ 3 whose neighbouring characters are not word characters (an adjacent
digit or underscore defeats the `\b`, and no shorter sub-run can match). -/
def findWordsAux : ℕ → Bool → List Char → List (List Char)
  | 0, _, _ => []
  | _ + 1, _, [] => []
  | fuel + 1, prevW, c :: rest =>
    if isAlphaCh c && !prevW then
      let run := c :: rest.takeWhile isAlphaCh
      let after := rest.dropWhile isAlphaCh
      let okEnd := match after with
        | [] => true
        | a :: _ => !isWordCh a
      (if 3 ≤ run.length && okEnd then [run] else []) ++ findWordsAux fuel true after
    else
      findWordsAux fuel (isWordCh c) rest

def findWords (s : List Char) : List (List Char) := findWordsAux (s.length + 1) false s

/-- `[w.lower() for w in words if w.lower() not in STOP_WORDS]`. -/
def slideWords (text : List Char) : List String :=
  ((findWords text).map (fun w => String.mk (lowerStr w))).filter (fun w => w ∉ STOP_WORDS)

/-- The character class kept by `re.sub(r'[^\w\s/&()-]', '', phrase)`. -/
def keepPhraseCh (c : Char) : Bool :=
  isWordCh c || isSpaceCh c || c == '/' || c == '&' || c == '(' || c == ')' || c == '-'

/-- The length-`n` sliding windows `word_list[i:i+n]` for `i` in
`range(len(word_list) - n + 1)`. -/
def windows {γ : Type} (n : ℕ) (l : List γ) : List (List γ) :=
  (List.range (l.length + 1 - n)).map (fun i => (l.drop i).take n)

/-- The n-gram pass of `build_vocabulary` for one `n`: join with single
spaces (the pieces are whitespace-free, so the `.strip()` is a no-op), keep
phrases of length > 6 not starting with a digit, strip the characters outside
`[\w\s/&()-]`, keep non-empty cleaned results lower-cased. -/
def phrasesOfLen (n : ℕ) (ws : List (List Char)) : List String :=
  (windows n ws).filterMap (fun w =>
    let phrase := List.intercalate [' '] w
    if 6 < phrase.length ∧ isDigitCh (phrase.headD ' ') = false then
      let cleaned := phrase.filter keepPhraseCh
      if cleaned ≠ [] then some (String.mk (lowerStr cleaned)) else none
    else none)

/-- The full term stream one slide feeds into its type counter and the
overall counter, in source order: filtered lower-cased words, then bigrams,
then trigrams. -/
def slideTerms (text : List Char) : List String :=
  slideWords text ++ phrasesOfLen 2 (pySplit text) ++ phrasesOfLen 3 (pySplit text)

/-- `defaultdict(Counter)`: update the counter at key `k` with `ts`
(a fresh empty counter is created when `k` is absent). -/
def dictCounterUpdate (d : List (String × List (String × ℕ))) (k : String) (ts : List String) :
    List (String × List (String × ℕ)) :=
  match d with
  | [] => [(k, counterUpdate [] ts)]
  | (k', c) :: rest =>
    if k' = k then (k', counterUpdate c ts) :: rest else (k', c) :: dictCounterUpdate rest k ts

/-- Python `dict[k] = v`: replace in place when present, append when absent. -/
def dictSet {κ ν : Type} [DecidableEq κ] (d : List (κ × ν)) (k : κ) (v : ν) : List (κ × ν) :=
  match d with
  | [] => [(k, v)]
  | (k', v') :: rest => if k' = k then (k', v) :: rest else (k', v') :: dictSet rest k v

/-- One iteration of the slide loop of `build_vocabulary`: the slide's term
stream updates `vocab_by_type[slide_type]` and `overall_vocab`. -/
def vocabStep (acc : List (String × List (String × ℕ)) × List (String × ℕ)) (s : Slide) :
    List (String × List (String × ℕ)) × List (String × ℕ) :=
  let terms := slideTerms s.full_text.toList
  (dictCounterUpdate acc.1 s.slide_type terms, counterUpdate acc.2 terms)

/-- The two accumulators of `build_vocabulary`: `vocab_by_type` and
`overall_vocab`, fed slide by slide. -/
def vocabCounters (slides : List Slide) :
    List (String × List (String × ℕ)) × List (String × ℕ) :=
  slides.foldl vocabStep ([], [])

/-- `SlideAnalyzer.build_vocabulary`: per-type lists (top 500, count ≥ 2) in
insertion order, then the `"_overall"` key (top 1000, count ≥ 3). -/
def build_vocabulary (slides : List Slide) : List (String × List (String × ℕ)) :=
  let bt := vocabCounters slides
  dictSet (bt.1.map (fun e => (e.1, (mostCommonN 500 e.2).filter (fun t => 2 ≤ t.2))))
    "_overall" ((mostCommonN 1000 bt.2).filter (fun t => 3 ≤ t.2))

/-! ### Counter algebra for C8 -/

theorem counterGet_counterAdd {α : Type} [DecidableEq α] (d : List (α × ℕ)) (k t : α) (n : ℕ) :
    counterGet (counterAdd d k n) t = counterGet d t + (if k = t then n else 0) := by
  induction d with
  | nil => by_cases h : k = t <;> simp [counterAdd, counterGet, h]
  | cons e rest ih =>
    obtain ⟨k', c⟩ := e
    simp only [counterAdd]
    by_cases h1 : k' = k
    · subst h1
      simp only [if_pos rfl, counterGet]
      by_cases h2 : k' = t <;> simp [h2]
    · simp only [if_neg h1, counterGet]
      by_cases h2 : k' = t
      · subst h2
        have h3 : ¬(k = k') := fun hh => h1 hh.symm
        simp [h3]
      · simp [h2, ih]

theorem counterGet_counterUpdate {α : Type} [DecidableEq α] (ks : List α) (d : List (α × ℕ))
    (t : α) : counterGet (counterUpdate d ks) t = counterGet d t + ks.count t := by
  induction ks generalizing d with
  | nil => simp [counterUpdate]
  | cons k ks ih =>
    show counterGet (counterUpdate (counterAdd d k 1) ks) t = _
    rw [ih, counterGet_counterAdd]
    by_cases h : k = t
    · subst h
      simp [List.count_cons]
      omega
    · have h2 : ¬(t = k) := fun hh => h hh.symm
      simp [List.count_cons, h, h2]

theorem dictCounterUpdate_sum (B : List (String × List (String × ℕ))) (k : String)
    (ts : List String) (t : String) :
    ((dictCounterUpdate B k ts).map (fun e => counterGet e.2 t)).sum =
      (B.map (fun e => counterGet e.2 t)).sum + ts.count t := by
  induction B with
  | nil => simp [dictCounterUpdate, counterGet_counterUpdate, counterGet]
  | cons e rest ih =>
    obtain ⟨k', c⟩ := e
    simp only [dictCounterUpdate]
    by_cases h1 : k' = k
    · simp only [if_pos h1, List.map_cons, List.sum_cons, counterGet_counterUpdate]
      omega
    · simp only [if_neg h1, List.map_cons, List.sum_cons, ih]
      omega

theorem vocab_foldl_inv (slides : List Slide) :
    ∀ (acc : List (String × List (String × ℕ)) × List (String × ℕ)) (t : String),
    counterGet acc.2 t = (acc.1.map (fun e => counterGet e.2 t)).sum →
    counterGet (slides.foldl vocabStep acc).2 t =
      ((slides.foldl vocabStep acc).1.map (fun e => counterGet e.2 t)).sum := by
  induction slides with
  | nil => intro acc t h; simpa using h
  | cons s rest ih =>
    intro acc t h
    simp only [List.foldl_cons]
    apply ih
    show counterGet (counterUpdate acc.2 (slideTerms s.full_text.toList)) t =
      ((dictCounterUpdate acc.1 s.slide_type (slideTerms s.full_text.toList)).map
        (fun e => counterGet e.2 t)).sum
    rw [counterGet_counterUpdate, dictCounterUpdate_sum, h]

/-! ### Key uniqueness of counters, for relating output pairs to counts -/

theorem mem_keys_counterAdd {α : Type} [DecidableEq α] (k x : α) (n : ℕ) :
    ∀ d : List (α × ℕ), x ∈ (counterAdd d k n).map Prod.fst → x ∈ d.map Prod.fst ∨ x = k := by
  intro d
  induction d with
  | nil =>
    intro h
    simp only [counterAdd, List.map_cons, List.map_nil, List.mem_cons] at h
    rcases h with h | h
    · exact Or.inr h
    · cases h
  | cons e rest ih =>
    obtain ⟨k', c⟩ := e
    intro h
    simp only [counterAdd] at h
    by_cases h1 : k' = k
    · rw [if_pos h1] at h
      simp only [List.map_cons, List.mem_cons] at h ⊢
      exact Or.inl h
    · rw [if_neg h1] at h
      simp only [List.map_cons, List.mem_cons] at h ⊢
      rcases h with h | h
      · exact Or.inl (Or.inl h)
      · rcases ih h with h2 | h2
        · exact Or.inl (Or.inr h2)
        · exact Or.inr h2

theorem nodup_keys_counterAdd {α : Type} [DecidableEq α] (d : List (α × ℕ)) (k : α) (n : ℕ)
    (h : (d.map Prod.fst).Nodup) : ((counterAdd d k n).map Prod.fst).Nodup := by
  induction d with
  | nil => simp [counterAdd]
  | cons e rest ih =>
    obtain ⟨k', c⟩ := e
    simp only [List.map_cons, List.nodup_cons] at h
    obtain ⟨hnot, hrest⟩ := h
    simp only [counterAdd]
    by_cases h1 : k' = k
    · simp only [if_pos h1, List.map_cons, List.nodup_cons]
      exact ⟨hnot, hrest⟩
    · simp only [if_neg h1, List.map_cons, List.nodup_cons]
      refine ⟨?_, ih hrest⟩
      intro hmem
      rcases mem_keys_counterAdd k k' n rest hmem with h2 | h2
      · exact hnot h2
      · exact h1 h2

theorem nodup_keys_counterUpdate {α : Type} [DecidableEq α] (ks : List α) (d : List (α × ℕ))
    (h : (d.map Prod.fst).Nodup) : ((counterUpdate d ks).map Prod.fst).Nodup := by
  induction ks generalizing d with
  | nil => simpa [counterUpdate] using h
  | cons k ks ih =>
    show ((counterUpdate (counterAdd d k 1) ks).map Prod.fst).Nodup
    exact ih _ (nodup_keys_counterAdd d k 1 h)

theorem nodup_keys_vocab_foldl (slides : List Slide) :
    ∀ (acc : List (String × List (String × ℕ)) × List (String × ℕ)),
    (acc.2.map Prod.fst).Nodup → ((slides.foldl vocabStep acc).2.map Prod.fst).Nodup := by
  induction slides with
  | nil => intro acc h; simpa using h
  | cons s rest ih =>
    intro acc h
    simp only [List.foldl_cons]
    exact ih _ (nodup_keys_counterUpdate _ _ h)

theorem counterGet_of_mem_nodup {α : Type} [DecidableEq α] (d : List (α × ℕ)) (t : α) (c : ℕ)
    (hnd : (d.map Prod.fst).Nodup) (hmem : (t, c) ∈ d) : counterGet d t = c := by
  induction d with
  | nil => cases hmem
  | cons e rest ih =>
    obtain ⟨k', v⟩ := e
    simp only [List.map_cons, List.nodup_cons] at hnd
    obtain ⟨hnot, hrest⟩ := hnd
    simp only [List.mem_cons] at hmem
    rcases hmem with h | h
    · have h1 : t = k' := congrArg Prod.fst h
      have h2 : c = v := congrArg Prod.snd h
      subst h1
      subst h2
      simp [counterGet]
    · show counterGet ((k', v) :: rest) t = c
      by_cases h2 : k' = t
      · subst h2
        exact absurd (by simpa using List.mem_map_of_mem Prod.fst h) hnot
      · simpa [counterGet, h2] using ih hrest h

theorem lookupD_dictSet {κ ν : Type} [DecidableEq κ] (d : List (κ × ν)) (k : κ) (v v0 : ν) :
    lookupD (dictSet d k v) k v0 = v := by
  induction d with
  | nil => simp [dictSet, lookupD]
  | cons e rest ih =>
    obtain ⟨k', v'⟩ := e
    simp only [dictSet]
    by_cases h1 : k' = k
    · simp [lookupD, h1]
    · simp [lookupD, h1, ih]

/-- C8: every slide feeds the same term stream into exactly one per-type
counter and the overall counter, so the overall count of any term equals the
sum of its per-type counts; consequently every `(term, count)` pair listed
under `"_overall"` in the `build_vocabulary` output carries exactly that
sum. -/
theorem c8_vocab_overall_sum :
    (∀ (slides : List Slide) (t : String),
      counterGet (vocabCounters slides).2 t =
        ((vocabCounters slides).1.map (fun e => counterGet e.2 t)).sum) ∧
    (∀ (slides : List Slide) (t : String) (c : ℕ),
      (t, c) ∈ lookupD (build_vocabulary slides) "_overall" [] →
      c = ((vocabCounters slides).1.map (fun e => counterGet e.2 t)).sum) := by
  have hpart1 : ∀ (slides : List Slide) (t : String),
      counterGet (vocabCounters slides).2 t =
        ((vocabCounters slides).1.map (fun e => counterGet e.2 t)).sum := by
    intro slides t
    exact vocab_foldl_inv slides ([], []) t (by simp [counterGet])
  refine ⟨hpart1, ?_⟩
  intro slides t c hmem
  have hover : lookupD (build_vocabulary slides) "_overall" [] =
      (mostCommonN 1000 (vocabCounters slides).2).filter (fun e => 3 ≤ e.2) := by
    unfold build_vocabulary
    exact lookupD_dictSet _ _ _ _
  rw [hover] at hmem
  have hmem1 : (t, c) ∈ mostCommonN 1000 (vocabCounters slides).2 :=
    (List.mem_filter.mp hmem).1
  have hmem2 : (t, c) ∈ mostCommon (vocabCounters slides).2 :=
    List.take_subset _ _ hmem1
  have hmem3 : (t, c) ∈ (vocabCounters slides).2 :=
    (mostCommon_perm _).mem_iff.mp hmem2
  have hnd : ((vocabCounters slides).2.map Prod.fst).Nodup :=
    nodup_keys_vocab_foldl slides ([], []) (by simp)
  have hget := counterGet_of_mem_nodup _ t c hnd hmem3
  rw [← hget]
  exact hpart1 slides t

/-- Witness for C8: three identical "bullets" slides put ("alpha", 3) in the
`"_overall"` output, and 3 is the sum of the per-type counts of "alpha". -/
theorem c8_vocab_overall_sum_witness :
    ("alpha", 3) ∈ lookupD (build_vocabulary
      [⟨"a.pdf", "bullets", "", "alpha beta gamma", [], [], 1⟩,
       ⟨"a.pdf", "bullets", "", "alpha beta gamma", [], [], 1⟩,
       ⟨"a.pdf", "bullets", "", "alpha beta gamma", [], [], 1⟩]) "_overall" [] ∧
    3 = ((vocabCounters
      [⟨"a.pdf", "bullets", "", "alpha beta gamma", [], [], 1⟩,
       ⟨"a.pdf", "bullets", "", "alpha beta gamma", [], [], 1⟩,
       ⟨"a.pdf", "bullets", "", "alpha beta gamma", [], [], 1⟩]).1.map
        (fun e => counterGet e.2 "alpha")).sum :=
  ⟨by decide, c8_vocab_overall_sum.2
    [⟨"a.pdf", "bullets", "", "alpha beta gamma", [], [], 1⟩,
     ⟨"a.pdf", "bullets", "", "alpha beta gamma", [], [], 1⟩,
     ⟨"a.pdf", "bullets", "", "alpha beta gamma", [], [], 1⟩] "alpha" 3 (by decide)⟩

/-! ## `PDFExtractor.extract_acronyms` (extractor.py lines 177-184)

`re.findall(r'\b([A-Z][A-Z0-9/&]{1,8}(?:\([A-Z&/]+\))?)\b', text)` is embedded
as an executable backtracking matcher specialised to this pattern, scanning
left to right, restarting one character later on failure and continuing after
each match.  Greedy sub-matches whose character classes are disjoint from
their successors reduce to maximal munch; the only genuine backtracking —
shrinking the `{1,8}` body and dropping the optional parenthesized group when
the final `\b` fails — is enumerated explicitly in engine preference order. -/

/-- The body class `[A-Z0-9/&]`. -/
def isAcroBody (c : Char) : Bool := isUpperCh c || isDigitCh c || c == '/' || c == '&'

/-- The parenthesized-suffix class `[A-Z&/]`. -/
def isSuffixCh (c : Char) : Bool := isUpperCh c || c == '&' || c == '/'

/-- Whether the next position holds a word character (end of string: no). -/
def headIsWord : List Char → Bool
  | [] => false
  | c :: _ => isWordCh c

/-- Python `str.isdigit` (ASCII): non-empty and all digits. -/
def pyIsDigit (l : List Char) : Bool := !l.isEmpty && l.all isDigitCh

/-- Try the optional group `(?:\([A-Z&/]+\))?` in its taken form, then the
closing `\b`: the match then ends in `)`, a non-word character, so the
boundary demands a word character next. -/
def tryGroup (first : Char) (body : List Char) (after : List Char) :
    Option (List Char × List Char) :=
  match after with
  | [] => none
  | a :: a2 =>
    if a = '(' then
      if (a2.takeWhile isSuffixCh).isEmpty then none
      else match a2.dropWhile isSuffixCh with
        | [] => none
        | b :: a4 =>
          if b = ')' then
            if headIsWord a4 then
              some (first :: body ++ '(' :: (a2.takeWhile isSuffixCh ++ [')']), a4)
            else none
          else none
    else none

/-- The optional group in its skipped form: the match ends with the last body
character, and the `\b` compares its wordness with the next character's. -/
def tryBare (first : Char) (body : List Char) (after : List Char) :
    Option (List Char × List Char) :=
  if (isWordCh (body.getLastD first)) != headIsWord after then some (first :: body, after)
  else none

/-- One body length: the engine prefers the group present over absent. -/
def tryAcroAt (first : Char) (body : List Char) (after : List Char) :
    Option (List Char × List Char) :=
  match tryGroup first body after with
  | some r => some r
  | none => tryBare first body after

/-- Backtrack the greedy `{1,8}` body from length `L` down to 1. -/
def tryLens (first : Char) (rest : List Char) : ℕ → Option (List Char × List Char)
  | 0 => none
  | L + 1 =>
    match tryAcroAt first (rest.take (L + 1)) (rest.drop (L + 1)) with
    | some r => some r
    | none => tryLens first rest L

/-- Attempt a match at the current position: the opening `\b` requires the
previous character to be a non-word character, the first character must be
`[A-Z]`, and the body run is capped at `min 8 (maximal class run)`. -/
def acroMatchAt (prevW : Bool) (cs : List Char) : Option (List Char × List Char) :=
  if prevW then none
  else match cs with
    | [] => none
    | c :: rest =>
      if isUpperCh c then tryLens c rest (min 8 (rest.takeWhile isAcroBody).length)
      else none

/-- The `findall` scan: emit each match and continue after it, else advance
one character, tracking the previous character's wordness for `\b`. -/
def acroScanAux : ℕ → Bool → List Char → List (List Char)
  | 0, _, _ => []
  | fuel + 1, prevW, cs =>
    match acroMatchAt prevW cs with
    | some (tok, rest) => tok :: acroScanAux fuel (isWordCh (tok.getLastD ' ')) rest
    | none =>
      match cs with
      | [] => []
      | c :: t => acroScanAux fuel (isWordCh c) t

/-- `PDFExtractor.extract_acronyms`:
`[m for m in matches if len(m) >= 2 and not m.isdigit()]`. -/
def extract_acronyms (text : String) : List String :=
  ((acroScanAux (text.toList.length + 1) false text.toList).filter
    (fun m => 2 ≤ m.length && !(pyIsDigit m))).map String.mk

/-- The token shape of §4.3: an uppercase first letter, 2–9 characters before
any parenthesized suffix, all drawn from `[A-Z0-9/&]`, and not purely
numeric. -/
def acronymShape (t : List Char) : Bool :=
  match t with
  | [] => false
  | c :: rest =>
    isUpperCh c && decide (1 ≤ (rest.takeWhile (fun x => x != '(')).length) &&
      decide ((rest.takeWhile (fun x => x != '(')).length ≤ 8) &&
      (rest.takeWhile (fun x => x != '(')).all isAcroBody && !(pyIsDigit (c :: rest))

/-! ### C6: every extracted token has the acronym shape -/

theorem all_mono {p q : Char → Bool} (h : ∀ c, p c = true → q c = true) :
    ∀ l : List Char, l.all p = true → l.all q = true := by
  intro l hl
  rw [List.all_eq_true] at hl ⊢
  exact fun c hc => h c (hl c hc)

theorem takeWhile_append_of_all {p : Char → Bool} (l1 l2 : List Char) (h : l1.all p = true) :
    (l1 ++ l2).takeWhile p = l1 ++ l2.takeWhile p := by
  induction l1 with
  | nil => simp
  | cons c rest ih =>
    simp only [List.all_cons, Bool.and_eq_true] at h
    simp [List.takeWhile_cons, h.1, ih h.2]

theorem all_take_of_le_takeWhile {p : Char → Bool} :
    ∀ (l : List Char) (n : ℕ), n ≤ (l.takeWhile p).length → (l.take n).all p = true := by
  intro l
  induction l with
  | nil => intro n _; simp
  | cons c rest ih =>
    intro n h
    cases n with
    | zero => simp
    | succ m =>
      by_cases hp : p c
      · simp only [List.takeWhile_cons, if_pos hp, List.length_cons] at h
        simp only [List.take_succ_cons, List.all_cons, Bool.and_eq_true]
        exact ⟨hp, ih m (by omega)⟩
      · simp [List.takeWhile_cons, hp] at h

theorem upper_not_digit (c : Char) (h : isUpperCh c = true) : isDigitCh c = false := by
  unfold isUpperCh at h
  unfold isDigitCh
  simp only [Bool.and_eq_true, decide_eq_true_eq] at h
  simp only [Bool.and_eq_false_iff, decide_eq_false_iff_not]
  omega

theorem acroBody_ne_paren (c : Char) (h : isAcroBody c = true) : (c != '(') = true := by
  by_cases hc : c = '('
  · subst hc
    exact absurd h (by decide)
  · simpa using hc

theorem acronymShape_build (first : Char) (body suffix : List Char)
    (hup : isUpperCh first = true)
    (h1 : 1 ≤ body.length) (h8 : body.length ≤ 8)
    (hall : body.all isAcroBody = true)
    (hsuf : suffix = [] ∨ ∃ tail, suffix = '(' :: tail) :
    acronymShape (first :: (body ++ suffix)) = true := by
  have hne : body.all (fun x => x != '(') = true :=
    all_mono acroBody_ne_paren body hall
  have hcore : (body ++ suffix).takeWhile (fun x => x != '(') = body := by
    rw [takeWhile_append_of_all body suffix hne]
    rcases hsuf with h | ⟨tail, h⟩ <;> subst h
    · simp
    · simp [List.takeWhile_cons]
  have hdig : pyIsDigit (first :: (body ++ suffix)) = false := by
    unfold pyIsDigit
    simp [upper_not_digit first hup]
  simp only [acronymShape, hcore, hdig]
  simp [hup, h1, h8, hall]

theorem tryGroup_some (first : Char) (body after tok rest : List Char)
    (h : tryGroup first body after = some (tok, rest)) :
    ∃ tail, tok = first :: (body ++ '(' :: tail) := by
  unfold tryGroup at h
  cases after with
  | nil => cases h
  | cons a a2 =>
    simp only at h
    split_ifs at h with h1 h2
    revert h
    split
    · intro h; cases h
    · intro h
      split_ifs at h with h3 h4
      have htok : first :: body ++ '(' :: (a2.takeWhile isSuffixCh ++ [')']) = tok :=
        congrArg Prod.fst (Option.some.inj h)
      refine ⟨a2.takeWhile isSuffixCh ++ [')'], ?_⟩
      rw [← htok]
      simp

theorem tryBare_some (first : Char) (body after tok rest : List Char)
    (h : tryBare first body after = some (tok, rest)) : tok = first :: body := by
  unfold tryBare at h
  split_ifs at h
  exact (congrArg Prod.fst (Option.some.inj h)).symm

theorem tryAcroAt_shape (first : Char) (body after tok rest : List Char)
    (hup : isUpperCh first = true)
    (h1 : 1 ≤ body.length) (h8 : body.length ≤ 8)
    (hall : body.all isAcroBody = true)
    (h : tryAcroAt first body after = some (tok, rest)) :
    acronymShape tok = true := by
  unfold tryAcroAt at h
  revert h
  split
  · rename_i r heq
    intro h
    have hr : r = (tok, rest) := Option.some.inj h
    obtain ⟨tail, htok⟩ := tryGroup_some first body after tok rest (by rw [heq, hr])
    rw [htok]
    exact acronymShape_build first body ('(' :: tail) hup h1 h8 hall (Or.inr ⟨tail, rfl⟩)
  · intro h
    rw [tryBare_some first body after tok rest h]
    have hrw : (first :: body : List Char) = first :: (body ++ []) := by simp
    rw [hrw]
    exact acronymShape_build first body [] hup h1 h8 hall (Or.inl rfl)

theorem takeWhile_length_le {p : Char → Bool} :
    ∀ l : List Char, (l.takeWhile p).length ≤ l.length := by
  intro l
  induction l with
  | nil => simp
  | cons c rest ih =>
    by_cases h : p c
    · simp only [List.takeWhile_cons, if_pos h, List.length_cons]
      omega
    · simp [List.takeWhile_cons, h]

theorem tryLens_shape (first : Char) (rest : List Char) :
    ∀ (L : ℕ) (tok rout : List Char), L ≤ 8 → L ≤ (rest.takeWhile isAcroBody).length →
    isUpperCh first = true →
    tryLens first rest L = some (tok, rout) → acronymShape tok = true := by
  intro L
  induction L with
  | zero => intro tok rout _ _ _ h; cases h
  | succ L ih =>
    intro tok rout h8 hrun hup h
    unfold tryLens at h
    revert h
    split
    · rename_i r heq
      intro h
      have hr : r = (tok, rout) := Option.some.inj h
      have hlen : (rest.take (L + 1)).length = L + 1 := by
        rw [List.length_take]
        have := takeWhile_length_le (p := isAcroBody) rest
        omega
      exact tryAcroAt_shape first (rest.take (L + 1)) (rest.drop (L + 1)) tok rout hup
        (by omega) (by omega) (all_take_of_le_takeWhile rest (L + 1) hrun)
        (by rw [heq, hr])
    · intro h
      exact ih tok rout (by omega) (by omega) hup h

theorem acroMatchAt_shape (prevW : Bool) (cs tok rest : List Char)
    (h : acroMatchAt prevW cs = some (tok, rest)) : acronymShape tok = true := by
  unfold acroMatchAt at h
  by_cases hw : prevW = true
  · rw [if_pos hw] at h; cases h
  · rw [if_neg hw] at h
    cases cs with
    | nil => cases h
    | cons c cr =>
      simp only at h
      by_cases hup : isUpperCh c = true
      · rw [if_pos hup] at h
        exact tryLens_shape c cr (min 8 (cr.takeWhile isAcroBody).length) tok rest
          (Nat.min_le_left _ _) (Nat.min_le_right _ _) hup h
      · rw [if_neg hup] at h; cases h

theorem acroScanAux_succ (fuel : ℕ) (prevW : Bool) (cs : List Char) :
    acroScanAux (fuel + 1) prevW cs =
      match acroMatchAt prevW cs with
      | some (tok, rest) => tok :: acroScanAux fuel (isWordCh (tok.getLastD ' ')) rest
      | none =>
        match cs with
        | [] => []
        | c :: t => acroScanAux fuel (isWordCh c) t := rfl

theorem acroScanAux_shape :
    ∀ (fuel : ℕ) (prevW : Bool) (cs tok : List Char),
    tok ∈ acroScanAux fuel prevW cs → acronymShape tok = true := by
  intro fuel
  induction fuel with
  | zero => intro prevW cs tok h; cases h
  | succ fuel ih =>
    intro prevW cs tok h
    rw [acroScanAux_succ] at h
    cases hm : acroMatchAt prevW cs with
    | some pr =>
      obtain ⟨tok', rest⟩ := pr
      rw [hm] at h
      simp only at h
      rcases List.mem_cons.mp h with h | h
      · rw [h]
        exact acroMatchAt_shape prevW cs tok' rest hm
      · exact ih _ _ _ h
    | none =>
      rw [hm] at h
      cases cs with
      | nil => simp only at h; cases h
      | cons c t =>
        simp only at h
        exact ih _ _ _ h

/-- C6: every token returned by `extract_acronyms` starts with an uppercase
letter, has 2–9 characters before any parenthesized suffix with its body
drawn from `[A-Z0-9/&]`, and is never purely numeric. -/
theorem c6_acronym_shape (text tok : String) (h : tok ∈ extract_acronyms text) :
    acronymShape tok.toList = true := by
  unfold extract_acronyms at h
  obtain ⟨l, hl, rfl⟩ := List.mem_map.mp h
  exact acroScanAux_shape _ _ _ _ (List.mem_of_mem_filter hl)

/-- Witness for C6 on a concrete text. -/
theorem c6_acronym_shape_witness :
    "JADC2" ∈ extract_acronyms "DARPA and JADC2" ∧
    acronymShape "JADC2".toList = true :=
  ⟨by decide, c6_acronym_shape "DARPA and JADC2" "JADC2" (by decide)⟩

/-! ## `SlideAnalyzer.build_acronym_db` (analyzer.py lines 84-116)

The expansion pattern
`((?:[A-Z][a-z]+[\s,&-]*){2,8})\s*\(([A-Z][A-Z0-9/&]{1,8})\)` is embedded as
an executable matcher: inside one unit `[A-Z][a-z]+[\s,&-]*` every greedy
piece is forced to maximal munch because its class is disjoint from every
possible successor, so the only real choice point is the unit count `{2,8}`,
enumerated greedily from 8 down to 2; the tail `\s*\(...\)` is likewise
maximal-munch.  Each word of the phrase must begin with an uppercase letter
followed by at least one lowercase letter. -/

/-- The inter-word class `[\s,&-]`. -/
def isSepCh (c : Char) : Bool := isSpaceCh c || c == ',' || c == '&' || c == '-'

/-- One unit `[A-Z][a-z]+[\s,&-]*` (maximal munch); returns the consumed
characters and the remainder. -/
def matchUnit : List Char → Option (List Char × List Char)
  | [] => none
  | c :: rest =>
    if isUpperCh c then
      if (rest.takeWhile isLowerCh).isEmpty then none
      else
        some (c :: (rest.takeWhile isLowerCh ++
                (rest.dropWhile isLowerCh).takeWhile isSepCh),
              (rest.dropWhile isLowerCh).dropWhile isSepCh)
    else none

/-- The group states after 1, 2, …, up to `fuel` units, in ascending order:
each state is (characters consumed so far, remainder). -/
def unitStates : ℕ → List Char → List (List Char × List Char)
  | 0, _ => []
  | n + 1, cs =>
    match matchUnit cs with
    | none => []
    | some (cap, rest) => (cap, rest) :: (unitStates n rest).map (fun pr => (cap ++ pr.1, pr.2))

/-- The tail `\s*\(([A-Z][A-Z0-9/&]{1,8})\)`: skip whitespace, an opening
parenthesis, the captured short uppercase token, a closing parenthesis. -/
def matchTail (cs : List Char) : Option (List Char × List Char) :=
  match cs.dropWhile isSpaceCh with
  | [] => none
  | a :: r2 =>
    if a = '(' then
      match r2 with
      | [] => none
      | c :: r3 =>
        if isUpperCh c then
          if 1 ≤ (r3.takeWhile isAcroBody).length ∧ (r3.takeWhile isAcroBody).length ≤ 8 then
            match r3.dropWhile isAcroBody with
            | [] => none
            | b :: r5 => if b = ')' then some (c :: r3.takeWhile isAcroBody, r5) else none
          else none
        else none
    else none

/-- Attempt the full expansion pattern at the current position, preferring
more units (`{2,8}` is greedy): returns (group 1, group 2, remainder). -/
def matchExpAt (cs : List Char) : Option (List Char × List Char × List Char) :=
  ((unitStates 8 cs).drop 1).reverse.findSome? (fun pr =>
    match matchTail pr.2 with
    | some (acro, r5) => some (pr.1, acro, r5)
    | none => none)

/-- The `findall` scan for the expansion pattern. -/
def expScanAux : ℕ → List Char → List (List Char × List Char)
  | 0, _ => []
  | fuel + 1, cs =>
    match matchExpAt cs with
    | some (cap, acro, rest) => (cap, acro) :: expScanAux fuel rest
    | none =>
      match cs with
      | [] => []
      | _ :: t => expScanAux fuel t

/-- `re.findall(expansion_pattern, text)`: the (expansion, acronym) pairs. -/
def findExpansions (text : String) : List (String × String) :=
  (expScanAux (text.toList.length + 1) text.toList).map
    (fun pr => (String.mk pr.1, String.mk pr.2))

/-- Python `k in dict` / `dict[k]` as an option-valued lookup. -/
def dictFind {κ ν : Type} [DecidableEq κ] (d : List (κ × ν)) (k : κ) : Option ν :=
  match d with
  | [] => none
  | (k', v) :: rest => if k' = k then some v else dictFind rest k

structure AcronymEntry where
  acronym : String
  count : ℕ
  expansion : Option String
deriving Repr, DecidableEq

/-- `SlideAnalyzer.build_acronym_db`: count acronym tokens across the batch,
collect `expansion.strip()` candidates per acronym from the expansion-pattern
scan, then emit `most_common(500)` entries, each with the most common
candidate expansion when one was observed. -/
def build_acronym_db (slides : List Slide) : List AcronymEntry :=
  let acc := slides.foldl
    (fun (acc : List (String × ℕ) × List (String × List (String × ℕ))) s =>
      (counterUpdate acc.1 s.acronyms,
       (findExpansions s.full_text).foldl
         (fun pe pr => dictCounterUpdate pe pr.2 [String.mk (stripWS pr.1.toList)]) acc.2))
    ([], [])
  (mostCommonN 500 acc.1).map (fun e =>
    match dictFind acc.2 e.1 with
    | some cnt => ⟨e.1, e.2, some ((mostCommonN 1 cnt).headD ("", 0)).1⟩
    | none => ⟨e.1, e.2, none⟩)

/-- The C4 scenario batch: the expansion text three times (its extracted,
de-duplicated acronym set is exactly `["JADC2"]`) and the bare token once. -/
def jadcBatch : List Slide :=
  [⟨"a.pdf", "bullets", "", "Joint All-Domain Command and Control (JADC2)", [], ["JADC2"], 1⟩,
   ⟨"a.pdf", "bullets", "", "Joint All-Domain Command and Control (JADC2)", [], ["JADC2"], 1⟩,
   ⟨"a.pdf", "bullets", "", "Joint All-Domain Command and Control (JADC2)", [], ["JADC2"], 1⟩,
   ⟨"b.pdf", "bullets", "", "JADC2", [], ["JADC2"], 1⟩]

/-- C4 (amended): on the scenario batch the acronym database entry is
`{acronym: "JADC2", count: 4}` with NO expansion: the expansion pattern
requires every word of the candidate phrase to start with an uppercase
letter, and the lowercase word "and" in
"Joint All-Domain Command and Control" breaks the chain, so the scan records
no candidate at all. -/
theorem c4_jadc2_entry :
    extract_acronyms "Joint All-Domain Command and Control (JADC2)" = ["JADC2"] ∧
    findExpansions "Joint All-Domain Command and Control (JADC2)" = [] ∧
    build_acronym_db jadcBatch = [⟨"JADC2", 4, none⟩] := by
  refine ⟨by decide, by decide, by decide⟩

/-- Counterexample to C4 as stated: the entry
`{acronym: "JADC2", count: 4, expansion: "Joint All-Domain Command and
Control"}` is not produced — the only entry carries no expansion. -/
theorem c4_counterexample :
    (⟨"JADC2", 4, some "Joint All-Domain Command and Control"⟩ : AcronymEntry) ∉
      build_acronym_db jadcBatch ∧
    (build_acronym_db jadcBatch).map AcronymEntry.expansion = [none] := by
  refine ⟨by decide, by decide⟩

/-! ## C5: every aggregation algorithm degrades to an empty default on the
empty batch -/

/-- C5: on the empty batch, `build_vocabulary` yields `{"_overall": []}`,
`build_acronym_db` an empty list, `analyze_color_palettes` only the synthetic
`_overall` entry with no colors, `collect_sample_text` an empty mapping,
`compute_slide_type_distribution` an empty mapping (its per-entry
`count / total` percentage expression is never evaluated, so the zero batch
total is never divided by), and `extract_common_titles` an empty list —
none of them raises, for every injected random source. -/
theorem c5_empty_batch :
    build_vocabulary [] = [("_overall", [])] ∧
    build_acronym_db [] = [] ∧
    (∀ sample, analyze_color_palettes sample [] = [⟨"_overall", []⟩]) ∧
    (∀ shuffle, collect_sample_text shuffle [] = []) ∧
    compute_slide_type_distribution [] = [] ∧
    extract_common_titles [] = [] :=
  ⟨rfl, rfl, fun _ => rfl, fun _ => rfl, rfl, rfl⟩

/-! ## `CorpusBuilder._build_slim_corpus` (build_corpus.py lines 56-100) -/

structure Stats where
  total_slides : ℕ
  unique_sources : ℕ
deriving Repr, DecidableEq

/-- The analyzer's aggregate result (analyzer.py lines 252-263). -/
structure AnalysisResult where
  vocabulary : List (String × List (String × ℕ))
  acronyms : List AcronymEntry
  palettes : List PaletteEntry
  sample_text : List (String × List Sample)
  type_distribution : List DistEntry
  common_titles : List (String × ℕ)
  stats : Stats

structure SlimCorpus where
  terms : List String
  type_vocab : List (String × List String)
  acronyms : List (String × String)
  titles : List String
  palettes : List (List (ℕ × ℕ × ℕ))
  samples : List (String × List (String × String))
  stats : Stats

/-- Python `s[:n]` on strings. -/
def strTake (s : String) (n : ℕ) : String := String.mk (s.toList.take n)

/-- Python `slide_type.startswith("_")`. -/
def startsWithUnderscore (s : String) : Bool :=
  match s.toList with
  | [] => false
  | c :: _ => c == '_'

/-- `CorpusBuilder._build_slim_corpus`. -/
def build_slim_corpus (a : AnalysisResult) : SlimCorpus :=
  { terms := ((lookupD a.vocabulary "_overall" []).take 300).map (fun v => v.1),
    type_vocab := (a.vocabulary.filter (fun e => !startsWithUnderscore e.1)).map
      (fun e => (e.1, (e.2.take 100).map (fun v => v.1))),
    acronyms := (a.acronyms.take 200).map (fun e => (e.acronym, e.expansion.getD "")),
    titles := (a.common_titles.take 100).map (fun t => t.1),
    palettes := (a.palettes.take 30).map (fun p => p.colors),
    samples := a.sample_text.map (fun e =>
      (e.1, (e.2.take 5).map (fun ex => (strTake ex.title 100, strTake ex.text 200)))),
    stats := a.stats }

theorem map_take_append {γ δ : Type} (f : γ → δ) (l : List γ) (n : ℕ) :
    (l.take n).map f ++ (l.drop n).map f = l.map f := by
  rw [← List.map_append, List.take_append_drop]

theorem length_map_take {γ δ : Type} (f : γ → δ) (l : List γ) (n : ℕ) :
    ((l.take n).map f).length = min n l.length := by
  rw [List.length_map, List.length_take]

/-- C9: the slim corpus is a strict prefix truncation of the full corpus
lists, with no reordering: overall terms are the first 300 of the
`"_overall"` vocabulary, acronyms the first 200 (short keys), titles the
first 100, palettes the first 30, and each per-type vocabulary the first 100
terms of its full list. -/
theorem c9_slim_truncation (a : AnalysisResult) :
    (∃ r, (build_slim_corpus a).terms ++ r =
      (lookupD a.vocabulary "_overall" []).map (fun v => v.1)) ∧
    (build_slim_corpus a).terms.length = min 300 (lookupD a.vocabulary "_overall" []).length ∧
    (∃ r, (build_slim_corpus a).acronyms ++ r =
      a.acronyms.map (fun e => (e.acronym, e.expansion.getD ""))) ∧
    (build_slim_corpus a).acronyms.length = min 200 a.acronyms.length ∧
    (∃ r, (build_slim_corpus a).titles ++ r = a.common_titles.map (fun t => t.1)) ∧
    (build_slim_corpus a).titles.length = min 100 a.common_titles.length ∧
    (∃ r, (build_slim_corpus a).palettes ++ r = a.palettes.map (fun p => p.colors)) ∧
    (build_slim_corpus a).palettes.length = min 30 a.palettes.length ∧
    (∀ ty l, (ty, l) ∈ (build_slim_corpus a).type_vocab →
      ∃ full, (ty, full) ∈ a.vocabulary ∧ (∃ r, l ++ r = full.map (fun v => v.1)) ∧
        l.length = min 100 full.length) := by
  refine ⟨⟨_, map_take_append _ _ _⟩, length_map_take _ _ _,
    ⟨_, map_take_append _ _ _⟩, length_map_take _ _ _,
    ⟨_, map_take_append _ _ _⟩, length_map_take _ _ _,
    ⟨_, map_take_append _ _ _⟩, length_map_take _ _ _, ?_⟩
  intro ty l hmem
  obtain ⟨e, he, heq⟩ := List.mem_map.mp hmem
  have h1 : ty = e.1 := (congrArg Prod.fst heq).symm
  have h2 : l = (e.2.take 100).map (fun v => v.1) := (congrArg Prod.snd heq).symm
  refine ⟨e.2, ?_, ⟨(e.2.drop 100).map (fun v => v.1), ?_⟩, ?_⟩
  · rw [h1]
    exact List.mem_of_mem_filter he
  · rw [h2]
    exact map_take_append _ _ _
  · rw [h2]
    exact length_map_take _ _ _

/-- Witness for C9 on a concrete analysis result. -/
theorem c9_slim_truncation_witness :
    ∃ full, ("bullets", full) ∈
        (⟨[("bullets", [("missile", 3)]), ("_overall", [("missile", 3)])],
          [⟨"AB", 2, none⟩], [⟨"title", [(0, 0, 0)]⟩], [], [], [("AGENDA", 5)],
          ⟨1, 1⟩⟩ : AnalysisResult).vocabulary ∧
      (∃ r, ["missile"] ++ r = full.map (fun v => v.1)) ∧
      (["missile"] : List String).length = min 100 full.length :=
  (c9_slim_truncation
    ⟨[("bullets", [("missile", 3)]), ("_overall", [("missile", 3)])],
     [⟨"AB", 2, none⟩], [⟨"title", [(0, 0, 0)]⟩], [], [], [("AGENDA", 5)],
     ⟨1, 1⟩⟩).2.2.2.2.2.2.2.2 "bullets" ["missile"] (by decide)

end PBG
